import Mathlib

/-!
Shallow embedding of `check_pelosi_scrape.py`: the heuristic table-to-record
extraction and novelty-detection pipeline.  Cell texts are modelled as Lean
`String`s; the character-class tests of the Python regexes are modelled over
ASCII (`Char.isUpper`, `Char.isDigit`, ...), matching the ASCII ranges the
regexes name.
-/

namespace PelosiScrape

/-- Python `str.strip` on a character list: drop whitespace from both ends. -/
def pyStripList (l : List Char) : List Char :=
  ((l.dropWhile Char.isWhitespace).reverse.dropWhile Char.isWhitespace).reverse

/-- Python `str.strip` on a string. -/
def pyStrip (s : String) : String := ⟨pyStripList s.data⟩

/-- Character class of `TICKER_RE = re.compile(r"^[A-Z0-9\.\-]{1,6}$")`. -/
def isTickerChar (c : Char) : Bool :=
  c.isUpper || c.isDigit || c = '.' || c = '-'

/-- `TICKER_RE.match(c)` on a stripped cell: 1..6 characters, all in the class
(the anchors make this a full match on strings with no trailing newline). -/
def tickerMatch (s : String) : Bool :=
  !s.data.isEmpty && Nat.ble s.data.length 6 && s.data.all isTickerChar

/-- The action keywords of the `transaction` heuristic. -/
def keywords : List String := ["buy", "sell", "purchase", "sale", "option"]

/-- Python substring test `pat in l`. -/
def containsSub (pat l : List Char) : Bool :=
  l.tails.any fun t => pat.isPrefixOf t

/-- `any(w in c.lower() for w in ("buy","sell","purchase","sale","option"))`. -/
def hasKeyword (c : String) : Bool :=
  keywords.any fun w => containsSub w.data (c.data.map Char.toLower)

/-- `DATE_RE = re.compile(r"\d{4}-\d{2}-\d{2}")` matching at the head of a
character list. -/
def isoDateAt : List Char → Bool
  | a :: b :: c :: d :: s1 :: e :: f :: s2 :: g :: h :: _ =>
    a.isDigit && b.isDigit && c.isDigit && d.isDigit && s1 = '-' &&
    e.isDigit && f.isDigit && s2 = '-' && g.isDigit && h.isDigit
  | _ => false

/-- `DATE_RE.search(c)`: the `YYYY-MM-DD` pattern occurs somewhere in `c`. -/
def hasIsoDate (s : String) : Bool := s.data.tails.any isoDateAt

/-- A regex word character (`\w`): ASCII letter, digit or underscore. -/
def isWordChar (c : Char) : Bool := c.isAlphanum || c = '_'

/-- Scanner for `re.search(r"\bQ[1-4]\b", c)`: `prev` is the character before
the current position (`none` at the start of the string). -/
def hasQuarterAux : Option Char → List Char → Bool
  | _, [] => false
  | prev, c :: rest =>
    (c = 'Q' &&
      (match prev with
       | none => true
       | some p => !isWordChar p) &&
      (match rest with
       | q :: rest2 =>
         (q = '1' || q = '2' || q = '3' || q = '4') &&
         (match rest2 with
          | [] => true
          | r :: _ => !isWordChar r)
       | [] => false))
    || hasQuarterAux (some c) rest

/-- `re.search(r"\bQ[1-4]\b", c)` succeeds. -/
def hasQuarter (s : String) : Bool := hasQuarterAux none s.data

/-- Remainders after consuming one or two digits (`\d{1,2}`) at the head. -/
def rests12 : List Char → List (List Char)
  | [] => []
  | [a] => if a.isDigit then [[]] else []
  | a :: b :: rest =>
    if a.isDigit then
      if b.isDigit then [b :: rest, rest] else [b :: rest]
    else []

/-- `\d{2,4}` can start here: at least two leading digits. -/
def twoDigitsPrefix : List Char → Bool
  | a :: b :: _ => a.isDigit && b.isDigit
  | _ => false

/-- `\d{1,2}/\d{1,2}/\d{2,4}` matches at the head of the list. -/
def slashDateAt (l : List Char) : Bool :=
  (rests12 l).any fun r1 =>
    match r1 with
    | '/' :: r2 =>
      (rests12 r2).any fun r3 =>
        match r3 with
        | '/' :: r4 => twoDigitsPrefix r4
        | _ => false
    | _ => false

/-- `re.search(r"\d{1,2}/\d{1,2}/\d{2,4}", c)` succeeds. -/
def hasSlashDate (s : String) : Bool := s.data.tails.any slashDateAt

/-- The `traded` heuristic: `DATE_RE.search(c) or re.search(r"\bQ[1-4]\b", c)
or re.search(r"\d{1,2}/\d{1,2}/\d{2,4}", c)`. -/
def dateLike (c : String) : Bool := hasIsoDate c || hasQuarter c || hasSlashDate c

/-- One extracted trade candidate: the dict
`{"id": identifier, "raw": cols, "summary_text": summary_text}`. -/
structure Trade where
  id : String
  raw : List String
  summary_text : String
  deriving Repr, DecidableEq

/-- `cols = [c.strip() for c in cols if c and c.strip()]`. -/
def cleanCols (cols : List String) : List String :=
  cols.filterMap fun c =>
    let t := pyStrip c
    if t = "" then none else some t

/-- `for c in cols[:3]: if TICKER_RE.match(c): ticker = c; break`. -/
def extractTicker (cols : List String) : Option String :=
  (cols.take 3).find? tickerMatch

/-- `transaction = next((c for c in cols if ...), "")` followed by the
second-column fallback `if not transaction and len(cols) >= 2`. -/
def extractTransaction (cols : List String) : String :=
  let t := (cols.find? hasKeyword).getD ""
  if t = "" then
    if 2 ≤ cols.length then cols.getD 1 "" else ""
  else t

/-- `traded = next((c for c in cols if ...), "")` followed by the
fourth-column fallback `if not traded and len(cols) >= 4`. -/
def extractTraded (cols : List String) : String :=
  let t := (cols.find? dateLike).getD ""
  if t = "" then
    if 4 ≤ cols.length then cols.getD 3 "" else ""
  else t

/-- `identifier = f"{ticker}||{transaction}||{traded}"`. -/
def mkIdentity (ticker transaction traded : String) : String :=
  ticker ++ "||" ++ transaction ++ "||" ++ traded

/-- `summary_text = f"{traded} â€” {transaction} {ticker} â€” {...}".strip()`
(the em-dash appears in the source as the mojibake sequence kept here). -/
def mkSummary (ticker transaction traded : String) (cols : List String) : String :=
  pyStrip (traded ++ " â€” " ++ transaction ++ " " ++ ticker ++ " â€” " ++
    (if 4 < cols.length then String.intercalate " | " (cols.drop 4) else ""))

/-- `row_to_trade(cols)`: interpret one row's cell texts as a trade. -/
def row_to_trade (cols0 : List String) : Option Trade :=
  if cols0 = [] then none else
  let cols := cleanCols cols0
  if cols = [] then none else
  match extractTicker cols with
  | none => none
  | some ticker =>
    some ⟨mkIdentity ticker (extractTransaction cols) (extractTraded cols),
          cols,
          mkSummary ticker (extractTransaction cols) (extractTraded cols) cols⟩

/-- One table row: the cell texts produced by `td.get_text(" ", strip=True)`. -/
abbrev Row := List String

/-- One `<table>`: its rows in document order. -/
abbrev Table := List Row

/-- The parsed page, abstracting the BeautifulSoup DOM traversal:
`headingTables` are the tables found near headings whose text starts with
"trades", `allTables` is `soup.find_all("table")`, and `allRows` is
`soup.find_all("tr")`, each in document order. -/
structure Doc where
  headingTables : List Table
  allTables : List Table
  allRows : List Row
  deriving Repr, DecidableEq

/-- The trades one table contributes: `row_to_trade` over its rows, keeping
the successes in order. -/
def tableTrades (t : Table) : List Trade :=
  t.filterMap row_to_trade

/-- The table loop of `parse_trades_from_html`: append each table's trades to
the accumulator and `break` as soon as the accumulator is non-empty after a
table has been fully processed. -/
def scanTablesAux : List Trade → List Table → List Trade
  | acc, [] => acc
  | acc, t :: rest =>
    let acc2 := acc ++ tableTrades t
    if acc2 = [] then scanTablesAux acc2 rest else acc2

/-- The de-dup loop: `seen` models the Python set of already-seen ids. -/
def dedupAux : List String → List Trade → List Trade
  | _, [] => []
  | seen, t :: rest =>
    if seen.contains t.id then dedupAux seen rest
    else t :: dedupAux (t.id :: seen) rest

/-- `possible_tables` after the heading scan: the heading-adjacent tables, or
every table in the document when no heading matched. -/
def possibleTables (d : Doc) : List Table :=
  if d.headingTables = [] then d.allTables else d.headingTables

/-- `parse_trades_from_html(html)`: scan the candidate tables with the
group-level short-circuit, fall back to every `<tr>` on the page when that
yields nothing, then de-duplicate preserving order. -/
def parse_trades_from_html (d : Doc) : List Trade :=
  let trades := scanTablesAux [] (possibleTables d)
  let trades := if trades = [] then d.allRows.filterMap row_to_trade else trades
  dedupAux [] trades

/-- The object written by `save_last_seen`:
`{"last_trade_id": ..., "timestamp": ..., "summary": ...}`. -/
structure SavedState where
  last_trade_id : String
  timestamp : Nat
  summary : String
  deriving Repr, DecidableEq

/-- Outcome of reading `last_seen.json`: the file is absent, opening or
parsing it raised, or it parsed to a JSON object (`none` models an object
without the expected keys, such as `{}`). -/
inductive FsRead where
  | absent : FsRead
  | failed : String → FsRead
  | ok : Option SavedState → FsRead
  deriving Repr, DecidableEq

/-- `load_last_seen()`: missing file yields the empty dict, a read or parse
error is caught, logged as a warning and yields the empty dict. -/
def load_last_seen : FsRead → Option SavedState
  | FsRead.absent => none
  | FsRead.failed _ => none
  | FsRead.ok v => v

/-- `fetch_via_requests(url)`: every exception of the request block is caught
and mapped to `None`; the argument models the outcome of that block, with the
fetched page already parsed into a `Doc`. -/
def fetch_via_requests (outcome : Except String Doc) : Option Doc :=
  match outcome with
  | Except.ok d => some d
  | Except.error _ => none

/-- `fetch_via_playwright(url)`: likewise, every exception (import failure,
launch failure, navigation timeout) is caught and mapped to `None`. -/
def fetch_via_playwright (outcome : Except String Doc) : Option Doc :=
  match outcome with
  | Except.ok d => some d
  | Except.error _ => none

/-- `POLITICIAN_PAGE`. -/
def POLITICIAN_PAGE : String :=
  "https://www.quiverquant.com/congresstrading/politician/Nancy%20Pelosi-P000197"

/-- The Telegram message composed in `main` (the emoji appears in the source
as the mojibake sequence kept here). -/
def composeMessage (latest : Trade) : String :=
  "ðŸŸ¢ <b>New Pelosi trade detected</b>\n" ++ latest.summary_text ++
    "\n\nSource: " ++ POLITICIAN_PAGE

/-- Observable outcome of one cycle: the returned exit code, the text handed
to `send_telegram` (if it was called) and the object handed to
`save_last_seen` (if it was called). -/
structure CycleOutcome where
  exitCode : Nat
  sentMessage : Option String
  savedState : Option SavedState
  deriving Repr, DecidableEq

/-- The tail of `main` after the fetches: bail out with code 2 when no trades
were identified, compare only `trades[0]` against the stored id, return 0
silently on a match, otherwise send the message; code 3 without saving on
delivery failure, else save the new marker and return 0.  `sendOk` models the
Boolean returned by `send_telegram` and `now` models `int(time.time())`. -/
def noveltyPhase (last_id : Option String) (trades : List Trade)
    (sendOk : Bool) (now : Nat) : CycleOutcome :=
  match trades with
  | [] => ⟨2, none, none⟩
  | latest :: _ =>
    if some latest.id = last_id then ⟨0, none, none⟩
    else
      let message := composeMessage latest
      if sendOk then
        ⟨0, some message, some ⟨latest.id, now, latest.summary_text⟩⟩
      else ⟨3, some message, none⟩

/-- Everything `main` consumes from the outside world in one cycle. -/
structure MainEnv where
  forcePlaywright : Bool
  requestsOutcome : Except String Doc
  playwrightOutcome : Except String Doc
  fsRead : FsRead
  sendOk : Bool
  now : Nat

/-- `last_id = load_last_seen().get("last_trade_id")`. -/
def cycleLastId (env : MainEnv) : Option String :=
  (load_last_seen env.fsRead).map SavedState.last_trade_id

/-- The trades list `main` ends up with: the requests fetch+parse unless
`FORCE_PLAYWRIGHT` is set, then the Playwright fetch+parse whenever that
produced nothing. -/
def cycleTrades (env : MainEnv) : List Trade :=
  let trades1 :=
    if env.forcePlaywright then []
    else
      match fetch_via_requests env.requestsOutcome with
      | some d => parse_trades_from_html d
      | none => []
  if trades1 = [] then
    match fetch_via_playwright env.playwrightOutcome with
    | some d => parse_trades_from_html d
    | none => []
  else trades1

/-- `main()`: load state, fetch and parse, then run the novelty phase. -/
def main (env : MainEnv) : CycleOutcome :=
  noveltyPhase (cycleLastId env) (cycleTrades env) env.sendOk env.now

/-- The empty page: no tables, no rows. -/
def emptyDoc : Doc := ⟨[], [], []⟩

/-- A cycle in which both fetch attempts raise an exception. -/
def envFetchException : MainEnv :=
  ⟨false, Except.error "requests.get raised", Except.error "playwright raised",
   FsRead.absent, true, 0⟩

/-- A cycle in which both fetches succeed but the page holds no records. -/
def envNoRecords : MainEnv :=
  ⟨false, Except.ok emptyDoc, Except.ok emptyDoc, FsRead.absent, true, 0⟩

/-! ## Theorems -/

/-- C1: Latest-only novelty detection: with a non-empty trades list only the
first trade is considered (the tail is irrelevant to the outcome); when the
stored id equals its identity the cycle returns 0 with no notification and no
state write, and when it differs (or no id is stored) exactly one message,
for that first trade, is sent. -/
theorem latest_only_novelty (last_id : Option String) (t : Trade)
    (ts : List Trade) (s : Bool) (now : Nat) :
    (some t.id = last_id →
      noveltyPhase last_id (t :: ts) s now = ⟨0, none, none⟩) ∧
    (some t.id ≠ last_id →
      (noveltyPhase last_id (t :: ts) s now).sentMessage =
        some (composeMessage t) ∧
      (noveltyPhase last_id (t :: ts) s now).exitCode = if s then 0 else 3) ∧
    (∀ ts' : List Trade,
      noveltyPhase last_id (t :: ts) s now =
      noveltyPhase last_id (t :: ts') s now) := by
  refine ⟨fun h => ?_, fun h => ?_, fun ts' => rfl⟩
  · simp [noveltyPhase, h]
  · cases s <;> simp [noveltyPhase, h]

theorem latest_only_novelty_witness :
    noveltyPhase (some "A||||") [⟨"A||||", ["A"], "x"⟩] true 0 = ⟨0, none, none⟩ ∧
    (noveltyPhase none [⟨"A||||", ["A"], "x"⟩] true 0).sentMessage =
      some (composeMessage ⟨"A||||", ["A"], "x"⟩) :=
  ⟨(latest_only_novelty (some "A||||") ⟨"A||||", ["A"], "x"⟩ [] true 0).1 rfl,
   ((latest_only_novelty none ⟨"A||||", ["A"], "x"⟩ [] true 0).2.1
      (by decide)).1⟩

/-- C6: Atomicity on notification failure: when a new record is detected but
delivery fails, `save_last_seen` is not called (the persisted state stays as
loaded) and the cycle exits with code 3; under the unchanged stored id, the
same record is detected and attempted again next cycle. -/
theorem notify_failure_atomic (last_id : Option String) (t : Trade)
    (ts : List Trade) (now now2 : Nat) (s2 : Bool)
    (h : some t.id ≠ last_id) :
    noveltyPhase last_id (t :: ts) false now =
      ⟨3, some (composeMessage t), none⟩ ∧
    (noveltyPhase last_id (t :: ts) s2 now2).sentMessage =
      some (composeMessage t) := by
  refine ⟨by simp [noveltyPhase, h], ?_⟩
  cases s2 <;> simp [noveltyPhase, h]

theorem notify_failure_atomic_witness :
    noveltyPhase none [⟨"A||||", ["A"], "x"⟩] false 0 =
      ⟨3, some (composeMessage ⟨"A||||", ["A"], "x"⟩), none⟩ :=
  (notify_failure_atomic none ⟨"A||||", ["A"], "x"⟩ [] 0 0 true (by decide)).1

/-- C8: State load never fails the cycle: an absent file, an unreadable file
and unparseable content all make `load_last_seen` return the empty state
instead of raising, and a cycle run under any such condition behaves exactly
like a cycle run on an empty state file. -/
theorem load_never_fails :
    load_last_seen FsRead.absent = none ∧
    (∀ m, load_last_seen (FsRead.failed m) = none) ∧
    (∀ env : MainEnv,
      (env.fsRead = FsRead.absent ∨ ∃ m, env.fsRead = FsRead.failed m) →
      main env = main {env with fsRead := FsRead.ok none}) := by
  refine ⟨rfl, fun m => rfl, fun env h => ?_⟩
  have hl : load_last_seen env.fsRead = none := by
    rcases h with h | ⟨m, h⟩ <;> rw [h] <;> rfl
  have hr : load_last_seen (FsRead.ok none) = none := rfl
  simp [main, cycleLastId, cycleTrades, hl, hr]

theorem load_never_fails_witness :
    main ⟨false, Except.error "e", Except.error "e", FsRead.absent, true, 0⟩ =
    main ⟨false, Except.error "e", Except.error "e", FsRead.ok none, true, 0⟩ :=
  load_never_fails.2.2
    ⟨false, Except.error "e", Except.error "e", FsRead.absent, true, 0⟩
    (Or.inl rfl)

theorem dedupAux_sublist (seen : List String) (l : List Trade) :
    List.Sublist (dedupAux seen l) l := by
  induction l generalizing seen with
  | nil => simp [dedupAux]
  | cons t rest ih =>
    simp only [dedupAux]
    split
    · exact List.Sublist.cons t (ih seen)
    · exact List.Sublist.cons₂ t (ih (t.id :: seen))

theorem mem_dedupAux {seen : List String} {l : List Trade} {t : Trade}
    (h : t ∈ dedupAux seen l) :
    t.id ∉ seen ∧ List.find? (fun u => u.id == t.id) l = some t := by
  induction l generalizing seen with
  | nil => simp [dedupAux] at h
  | cons u rest ih =>
    simp only [dedupAux] at h
    by_cases hc : u.id ∈ seen
    · rw [if_pos (by simpa using hc)] at h
      obtain ⟨h1, h2⟩ := ih h
      refine ⟨h1, ?_⟩
      rw [List.find?_cons_of_neg rest ?_, h2]
      simp only [beq_iff_eq]
      exact fun e => h1 (e ▸ hc)
    · rw [if_neg (by simpa using hc)] at h
      rcases List.mem_cons.mp h with rfl | h
      · exact ⟨hc, List.find?_cons_of_pos rest (by simp)⟩
      · obtain ⟨h1, h2⟩ := ih h
        have hne : t.id ≠ u.id := fun e => h1 (by simp [e])
        have hns : t.id ∉ seen := fun e => h1 (List.mem_cons_of_mem _ e)
        refine ⟨hns, ?_⟩
        rw [List.find?_cons_of_neg rest ?_, h2]
        simp only [beq_iff_eq]
        exact fun e => hne e.symm

theorem dedupAux_pairwise (seen : List String) (l : List Trade) :
    List.Pairwise (fun a b => a.id ≠ b.id) (dedupAux seen l) := by
  induction l generalizing seen with
  | nil => simp [dedupAux]
  | cons u rest ih =>
    simp only [dedupAux]
    split
    · exact ih seen
    · refine List.Pairwise.cons (fun b hb e => ?_) (ih (u.id :: seen))
      exact (mem_dedupAux hb).1 (by simp [e])

theorem dedupAux_of_pairwise (seen : List String) (l : List Trade)
    (hs : ∀ t ∈ l, t.id ∉ seen)
    (hp : List.Pairwise (fun a b => a.id ≠ b.id) l) :
    dedupAux seen l = l := by
  induction l generalizing seen with
  | nil => rfl
  | cons u rest ih =>
    have hu : u.id ∉ seen := hs u (List.mem_cons_self u rest)
    have hcu : seen.contains u.id = false := by simpa using hu
    simp only [dedupAux, hcu, Bool.false_eq_true, if_false, List.cons.injEq,
      true_and]
    refine ih (u.id :: seen) (fun t ht => ?_) hp.tail
    intro hmem
    rcases List.mem_cons.mp hmem with e | e
    · exact (List.rel_of_pairwise_cons hp ht) e.symm
    · exact hs t (List.mem_cons_of_mem _ ht) e

/-- C4: Deduplication is idempotent and order-preserving: the de-dup step
yields pairwise-distinct identities, its output is a sublist of its input,
each kept element is the first occurrence of its identity, an
already-deduplicated list passes through unchanged (hence de-dup is
idempotent), and the extractor is a pure function, so running it twice on the
same page yields identical output. -/
theorem dedup_properties :
    (∀ l : List Trade,
      List.Pairwise (fun a b => a.id ≠ b.id) (dedupAux [] l)) ∧
    (∀ l : List Trade, List.Sublist (dedupAux [] l) l) ∧
    (∀ (l : List Trade) (t : Trade), t ∈ dedupAux [] l →
      List.find? (fun u => u.id == t.id) l = some t) ∧
    (∀ l : List Trade,
      List.Pairwise (fun a b => a.id ≠ b.id) l → dedupAux [] l = l) ∧
    (∀ l : List Trade, dedupAux [] (dedupAux [] l) = dedupAux [] l) ∧
    (∀ d : Doc, parse_trades_from_html d = parse_trades_from_html d) := by
  refine ⟨fun l => dedupAux_pairwise [] l,
          fun l => dedupAux_sublist [] l,
          fun l t h => (mem_dedupAux h).2,
          fun l hp => dedupAux_of_pairwise [] l (by simp) hp,
          fun l => dedupAux_of_pairwise [] (dedupAux [] l) (by simp)
            (dedupAux_pairwise [] l),
          fun d => rfl⟩

theorem dedup_properties_witness :
    dedupAux []
      [⟨"A||||", ["A"], "x"⟩, ⟨"B||||", ["B"], "y"⟩] =
      [⟨"A||||", ["A"], "x"⟩, ⟨"B||||", ["B"], "y"⟩] :=
  dedup_properties.2.2.2.1
    [⟨"A||||", ["A"], "x"⟩, ⟨"B||||", ["B"], "y"⟩]
    (by simp)

theorem scanTablesAux_nil_prefix (ts1 : List Table)
    (h : ∀ u ∈ ts1, tableTrades u = []) (rest : List Table) :
    scanTablesAux [] (ts1 ++ rest) = scanTablesAux [] rest := by
  induction ts1 with
  | nil => rfl
  | cons u ts ih =>
    have hu : tableTrades u = [] := h u (List.mem_cons_self u ts)
    simp only [List.cons_append, scanTablesAux, hu, List.append_nil, if_pos rfl]
    exact ih fun v hv => h v (List.mem_cons_of_mem u hv)

theorem scanTablesAux_first (t : Table) (ts2 : List Table)
    (h : tableTrades t ≠ []) :
    scanTablesAux [] (t :: ts2) = tableTrades t := by
  simp only [scanTablesAux, List.nil_append]
  exact if_neg h

/-- C5: Group-level short-circuit: the candidate tables are processed in
document order, and once the first table contributing at least one record has
been fully processed the scan stops, so records of later tables never reach
the output; only when every candidate table contributes nothing does the
extractor fall back to classifying every row of the document, with no
short-circuit. -/
theorem table_short_circuit :
    (∀ (d : Doc) (ts1 : List Table) (t : Table) (ts2 : List Table),
      possibleTables d = ts1 ++ t :: ts2 →
      (∀ u ∈ ts1, tableTrades u = []) →
      tableTrades t ≠ [] →
      parse_trades_from_html d = dedupAux [] (tableTrades t)) ∧
    (∀ d : Doc, (∀ u ∈ possibleTables d, tableTrades u = []) →
      parse_trades_from_html d =
        dedupAux [] (d.allRows.filterMap row_to_trade)) := by
  constructor
  · intro d ts1 t ts2 hsplit h1 ht
    have hscan : scanTablesAux [] (possibleTables d) = tableTrades t := by
      rw [hsplit, scanTablesAux_nil_prefix ts1 h1 (t :: ts2),
        scanTablesAux_first t ts2 ht]
    simp only [parse_trades_from_html, hscan, if_neg ht]
  · intro d h
    have hscan : scanTablesAux [] (possibleTables d) = [] := by
      have := scanTablesAux_nil_prefix (possibleTables d) h []
      rwa [List.append_nil] at this
    simp [parse_trades_from_html, hscan]

theorem table_short_circuit_witness :
    parse_trades_from_html
      ⟨[[["TSLA", "Sale", "2024-01-15"]], [["AAPL"]]], [], []⟩ =
      dedupAux [] (tableTrades [["TSLA", "Sale", "2024-01-15"]]) :=
  table_short_circuit.1
    ⟨[[["TSLA", "Sale", "2024-01-15"]], [["AAPL"]]], [], []⟩
    [] [["TSLA", "Sale", "2024-01-15"]] [[["AAPL"]]]
    (by decide) (by simp) (by decide)

theorem row_to_trade_some {cols : List String} {t : Trade}
    (h : row_to_trade cols = some t) :
    ∃ tk, extractTicker (cleanCols cols) = some tk ∧
      t = ⟨mkIdentity tk (extractTransaction (cleanCols cols))
             (extractTraded (cleanCols cols)),
           cleanCols cols,
           mkSummary tk (extractTransaction (cleanCols cols))
             (extractTraded (cleanCols cols)) (cleanCols cols)⟩ := by
  simp only [row_to_trade] at h
  split at h
  · exact absurd h (by simp)
  · split at h
    · exact absurd h (by simp)
    · cases htk : extractTicker (cleanCols cols) with
      | none => rw [htk] at h; exact absurd h (by simp)
      | some tk =>
        rw [htk] at h
        exact ⟨tk, rfl, (Option.some.inj h).symm⟩

/-- C2: Rows without a ticker-shaped token (1-6 characters, uppercase
letters, digits, dot or dash) among their first three trimmed non-empty cells
are discarded: `row_to_trade` returns `none`, never an error; conversely a
record is only constructed when such a token occurs among the first three
cells. -/
theorem no_ticker_no_record :
    (∀ cols : List String,
      (∀ c ∈ (cleanCols cols).take 3, tickerMatch c = false) →
      row_to_trade cols = none) ∧
    (∀ (cols : List String) (t : Trade), row_to_trade cols = some t →
      ∃ c ∈ (cleanCols cols).take 3, tickerMatch c = true) := by
  constructor
  · intro cols h
    have hf : extractTicker (cleanCols cols) = none := by
      unfold extractTicker
      exact List.find?_eq_none.mpr fun c hc => by simp [h c hc]
    simp [row_to_trade, hf]
  · intro cols t h
    obtain ⟨tk, htk, -⟩ := row_to_trade_some h
    unfold extractTicker at htk
    exact ⟨tk, List.mem_of_find?_eq_some htk, List.find?_some htk⟩

theorem no_ticker_no_record_witness :
    row_to_trade ["hello", "Sale", "2024-01-15"] = none :=
  no_ticker_no_record.1 ["hello", "Sale", "2024-01-15"] (by decide)

/-- C3: The identity of every constructed record is the deterministic pure
function joining the extracted (ticker, transaction_label, traded_label)
triple with the fixed separator; two rows with identical extracted triples
get the same identity whatever their other columns hold. -/
theorem identity_from_triple :
    (∀ (cols : List String) (t : Trade), row_to_trade cols = some t →
      ∃ tk, extractTicker (cleanCols cols) = some tk ∧
        t.id = mkIdentity tk (extractTransaction (cleanCols cols))
          (extractTraded (cleanCols cols))) ∧
    (∀ tk tx td : String, mkIdentity tk tx td = tk ++ "||" ++ tx ++ "||" ++ td) ∧
    (∀ (cols1 cols2 : List String) (t1 t2 : Trade),
      row_to_trade cols1 = some t1 → row_to_trade cols2 = some t2 →
      extractTicker (cleanCols cols1) = extractTicker (cleanCols cols2) →
      extractTransaction (cleanCols cols1) = extractTransaction (cleanCols cols2) →
      extractTraded (cleanCols cols1) = extractTraded (cleanCols cols2) →
      t1.id = t2.id) := by
  refine ⟨fun cols t h => ?_, fun tk tx td => rfl,
          fun cols1 cols2 t1 t2 h1 h2 e1 e2 e3 => ?_⟩
  · obtain ⟨tk, htk, rfl⟩ := row_to_trade_some h
    exact ⟨tk, htk, rfl⟩
  · obtain ⟨tk1, htk1, rfl⟩ := row_to_trade_some h1
    obtain ⟨tk2, htk2, rfl⟩ := row_to_trade_some h2
    have : tk1 = tk2 := Option.some.inj (htk1 ▸ htk2 ▸ e1)
    simp [this, e2, e3]

theorem identity_from_triple_witness :
    (⟨"TSLA||Sale||2024-01-15", ["TSLA", "Sale", "2024-01-15"],
      "2024-01-15 â€” Sale TSLA â€”"⟩ : Trade).id =
    (⟨"TSLA||Sale||2024-01-15", ["TSLA", "Sale", "2024-01-15", "x", "extra"],
      "2024-01-15 â€” Sale TSLA â€” extra"⟩ : Trade).id :=
  identity_from_triple.2.2
    ["TSLA", "Sale", "2024-01-15"]
    ["TSLA", "Sale", "2024-01-15", "x", "extra"]
    _ _ (by decide) (by decide) (by decide) (by decide) (by decide)

theorem hasKeyword_ne_empty {c : String} (h : hasKeyword c = true) : c ≠ "" := by
  intro e
  rw [e] at h
  exact absurd h (by decide)

theorem dateLike_ne_empty {c : String} (h : dateLike c = true) : c ≠ "" := by
  intro e
  rw [e] at h
  exact absurd h (by decide)

/-- C9: Column fallback rules: for every classified row, the transaction
label is the first cell containing an action keyword anywhere in the row,
falling back to the second column when no keyword cell exists and the row has
at least two columns; the traded label is the first cell matching a date-like
pattern anywhere in the row, falling back to the fourth column when absent
and the row has at least four columns — and the record's identity is built
from exactly these labels. -/
theorem column_fallback_rules (cols : List String) (t : Trade)
    (h : row_to_trade cols = some t) :
    (∀ c, (cleanCols cols).find? hasKeyword = some c →
      extractTransaction (cleanCols cols) = c) ∧
    ((∀ c ∈ cleanCols cols, hasKeyword c = false) →
      2 ≤ (cleanCols cols).length →
      extractTransaction (cleanCols cols) = (cleanCols cols).getD 1 "") ∧
    (∀ c, (cleanCols cols).find? dateLike = some c →
      extractTraded (cleanCols cols) = c) ∧
    ((∀ c ∈ cleanCols cols, dateLike c = false) →
      4 ≤ (cleanCols cols).length →
      extractTraded (cleanCols cols) = (cleanCols cols).getD 3 "") ∧
    t.id = mkIdentity ((extractTicker (cleanCols cols)).getD "")
      (extractTransaction (cleanCols cols)) (extractTraded (cleanCols cols)) := by
  refine ⟨fun c hc => ?_, fun hall hlen => ?_, fun c hc => ?_,
    fun hall hlen => ?_, ?_⟩
  · have hne : c ≠ "" := hasKeyword_ne_empty (List.find?_some hc)
    simp [extractTransaction, hc, hne]
  · have hf : (cleanCols cols).find? hasKeyword = none :=
      List.find?_eq_none.mpr fun c hc => by simp [hall c hc]
    simp [extractTransaction, hf, hlen]
  · have hne : c ≠ "" := dateLike_ne_empty (List.find?_some hc)
    simp [extractTraded, hc, hne]
  · have hf : (cleanCols cols).find? dateLike = none :=
      List.find?_eq_none.mpr fun c hc => by simp [hall c hc]
    simp [extractTraded, hf, hlen]
  · obtain ⟨tk, htk, rfl⟩ := row_to_trade_some h
    simp [htk]

theorem column_fallback_rules_witness :
    extractTransaction (cleanCols ["TSLA", "Sale", "2024-01-15"]) = "Sale" :=
  (column_fallback_rules ["TSLA", "Sale", "2024-01-15"]
      ⟨"TSLA||Sale||2024-01-15", ["TSLA", "Sale", "2024-01-15"],
        "2024-01-15 â€” Sale TSLA â€”"⟩
      (by decide)).1 "Sale" (by decide)

theorem isTickerChar_not_ws {c : Char} (h : isTickerChar c = true) :
    c.isWhitespace = false := by
  cases hw : c.isWhitespace with
  | false => rfl
  | true =>
    exfalso
    have hc : ((c = ' ' ∨ c = '\t') ∨ c = '\r') ∨ c = '\n' := by
      simpa [Char.isWhitespace] using hw
    rcases hc with ((rfl | rfl) | rfl) | rfl <;> exact absurd h (by decide)

theorem dropWhile_eq_self {p : Char → Bool} {l : List Char}
    (h : ∀ c ∈ l, p c = false) : l.dropWhile p = l := by
  cases l with
  | nil => rfl
  | cons a l => simp [List.dropWhile_cons, h a (List.mem_cons_self a l)]

theorem pyStrip_eq_self {s : String}
    (h : ∀ c ∈ s.data, c.isWhitespace = false) : pyStrip s = s := by
  cases s with
  | mk data =>
    apply congrArg String.mk
    show pyStripList data = data
    unfold pyStripList
    rw [dropWhile_eq_self h,
      dropWhile_eq_self fun c hc => h c (List.mem_reverse.mp hc),
      List.reverse_reverse]

theorem mkIdentity_empty (c : String) : mkIdentity c "" "" = c ++ "||||" := by
  have happ : ∀ s t : String, s ++ t = ⟨s.data ++ t.data⟩ :=
    fun ⟨a⟩ ⟨b⟩ => rfl
  simp [mkIdentity, happ]

/-- C10: A row containing a ticker-shaped token but too few columns for the
fallbacks and no keyword or date match still yields a record whose
transaction and traded labels are the empty string, so its identity is the
ticker followed by four pipe characters; in particular the single-cell row
containing just "TSLA" produces the identity "TSLA||||". -/
theorem single_cell_record (c : String) (h1 : tickerMatch c = true)
    (h2 : hasKeyword c = false) (h3 : dateLike c = false) :
    row_to_trade [c] = some ⟨c ++ "||||", [c], mkSummary c "" "" [c]⟩ ∧
    row_to_trade ["TSLA"] =
      some ⟨"TSLA||||", ["TSLA"], "â€”  TSLA â€”"⟩ := by
  refine ⟨?_, by decide⟩
  have hne : c ≠ "" := by
    intro e
    rw [e] at h1
    exact absurd h1 (by decide)
  have hstrip : pyStrip c = c := by
    refine pyStrip_eq_self fun ch hch => ?_
    have : isTickerChar ch = true := by
      have hall := h1
      simp only [tickerMatch, Bool.and_eq_true, List.all_eq_true] at hall
      exact hall.2 ch hch
    exact isTickerChar_not_ws this
  have hclean : cleanCols [c] = [c] := by
    simp [cleanCols, hstrip, hne]
  have htk : extractTicker [c] = some c := by
    simp [extractTicker, List.find?, h1]
  have hlen : [c].length = 1 := rfl
  have htx : extractTransaction [c] = "" := by
    simp [extractTransaction, List.find?, h2]
  have htd : extractTraded [c] = "" := by
    simp [extractTraded, List.find?, h3]
  have hc0 : ([c] : List String) ≠ [] := by simp
  simp [row_to_trade, hclean, htk, htx, htd, hne, mkIdentity_empty]

theorem single_cell_record_witness :
    row_to_trade ["NVDA"] =
      some ⟨"NVDA" ++ "||||", ["NVDA"], mkSummary "NVDA" "" "" ["NVDA"]⟩ :=
  (single_cell_record "NVDA" (by decide) (by decide) (by decide)).1

/-- C7 counterexample: a cycle in which both fetch attempts raise generic
exceptions exits with code 2 — exactly the code of a cycle in which the
fetches succeed but no records could be identified — so fetch exceptions do
not receive a distinct exit code of their own: both fetchers catch every
exception and return no content. -/
theorem fetch_exception_shares_no_records_code :
    main envFetchException = ⟨2, none, none⟩ ∧
    main envNoRecords = ⟨2, none, none⟩ ∧
    (main envFetchException).exitCode = (main envNoRecords).exitCode := by
  refine ⟨by decide, by decide, by decide⟩

/-- C7 amended: the cycle exits 0 on success or when nothing is new, exits 2
when no records could be identified across all fetch strategies — including
when the fetch attempts raise exceptions, which are caught inside the
fetchers and mapped to no content, thereby sharing the no-records code rather
than receiving a distinct one — and exits 3 when notification delivery
fails, leaving the state unwritten. -/
theorem exit_code_mapping (env : MainEnv) :
    (cycleTrades env = [] → main env = ⟨2, none, none⟩) ∧
    (∀ t ts, cycleTrades env = t :: ts → some t.id = cycleLastId env →
      main env = ⟨0, none, none⟩) ∧
    (∀ t ts, cycleTrades env = t :: ts → some t.id ≠ cycleLastId env →
      env.sendOk = false →
      main env = ⟨3, some (composeMessage t), none⟩) ∧
    (∀ t ts, cycleTrades env = t :: ts → some t.id ≠ cycleLastId env →
      env.sendOk = true →
      main env = ⟨0, some (composeMessage t),
        some ⟨t.id, env.now, t.summary_text⟩⟩) ∧
    ((∃ e, env.requestsOutcome = Except.error e) →
      (∃ e, env.playwrightOutcome = Except.error e) →
      cycleTrades env = []) := by
  refine ⟨fun h => ?_, fun t ts h he => ?_, fun t ts h he hs => ?_,
    fun t ts h he hs => ?_, fun ⟨e1, h1⟩ ⟨e2, h2⟩ => ?_⟩
  · simp [main, h, noveltyPhase]
  · simp [main, h, noveltyPhase, he]
  · simp [main, h, noveltyPhase, he, hs]
  · simp [main, h, noveltyPhase, he, hs]
  · cases hfp : env.forcePlaywright <;>
      simp [cycleTrades, h1, h2, hfp, fetch_via_requests, fetch_via_playwright]

theorem exit_code_mapping_witness :
    main ⟨false,
      Except.ok ⟨[[["TSLA", "Sale", "2024-01-15"]]], [], []⟩,
      Except.error "unused", FsRead.absent, true, 11⟩ =
    ⟨0, some (composeMessage ⟨"TSLA||Sale||2024-01-15",
        ["TSLA", "Sale", "2024-01-15"], "2024-01-15 â€” Sale TSLA â€”"⟩),
      some ⟨"TSLA||Sale||2024-01-15", 11, "2024-01-15 â€” Sale TSLA â€”"⟩⟩ :=
  (exit_code_mapping ⟨false,
      Except.ok ⟨[[["TSLA", "Sale", "2024-01-15"]]], [], []⟩,
      Except.error "unused", FsRead.absent, true, 11⟩).2.2.2.1
    ⟨"TSLA||Sale||2024-01-15", ["TSLA", "Sale", "2024-01-15"],
      "2024-01-15 â€” Sale TSLA â€”"⟩ []
    (by decide) (by decide) rfl

end PelosiScrape
